import Mathlib

/-
Verification of the club membership and leadership manager of the
BerkConnect repository.

The embedding models the state touched by the club endpoints:

* `clubs` row: `is_claimed : Bool`, `president_id : Option String`
  (schema `src/database/clubs-schema.sql`: `is_claimed BOOLEAN DEFAULT
  FALSE`, `president_id UUID REFERENCES users(id)`, nullable).
* `club_members` rows: `(user_id, role)` pairs for one club, role a
  string checked against whitelists in the handlers.  The schema has
  `UNIQUE(club_id, user_id)`.
* `users` rows: `(id, email)` pairs, used by the add-leader endpoint
  (lookup by email) and the join endpoint (existence check by id).

Operations embedded, each from its route handler:

* `claimClub`       — POST   /api/clubs/[id]/claim
* `joinClub`        — POST   /api/clubs/[id]/join
* `leaveClub`       — DELETE /api/clubs/[id]/join
* `addLeader`       — POST   /api/clubs/[id]/members/add-leader
* `updateMemberRole`— PUT    /api/clubs/[id]/members/[memberId]/role

Each operation returns the HTTP-level result together with the new
database state; error paths in the handlers return before any write, so
they leave the state unchanged.
-/

namespace BerkConnect

/-- One `club_members` row for the club under consideration:
`user_id` and `role` (string-typed in the schema). -/
structure Mem where
  user : String
  role : String
deriving DecidableEq, Repr

/-- The `clubs` row fields the leadership logic touches: `is_claimed`,
nullable `president_id`, plus the `club_members` rows of this club. -/
structure Club where
  claimed : Bool
  president : Option String
  mems : List Mem
deriving DecidableEq, Repr

/-- Database state for one club: the `users` table as `(id, email)`
pairs and the club row (`none` when no club with the requested id
exists). -/
structure DB where
  users : List (String × String)
  club : Option Club
deriving DecidableEq, Repr

/-- HTTP-level outcome of a handler: `ok` for a `success: true`
response, `err status message` for a `success: false` response. -/
inductive Res where
  | ok : Res
  | err : Nat → String → Res
deriving DecidableEq, Repr

/-- The `user_id` column of a list of membership rows. -/
def usersOf (mems : List Mem) : List String :=
  mems.map Mem.user

/-- Users of the rows whose role column reads president: the SELECT of
user_id FROM club_members WHERE the role equals president. -/
def presUsers (mems : List Mem) : List String :=
  (mems.filter (fun m => m.role == "president")).map Mem.user

/-- Role of a user in the club, read off the (unique) matching row. -/
def roleOf (mems : List Mem) (uid : String) : Option String :=
  (mems.find? (fun m => m.user == uid)).map Mem.role

/-- `UPDATE club_members SET role = $r WHERE club_id = $c AND
user_id = $uid`: every matching row gets the new role. -/
def updRole (mems : List Mem) (uid r : String) : List Mem :=
  mems.map (fun m => if m.user = uid then { m with role := r } else m)

/-- `INSERT INTO club_members (club_id, user_id, role) VALUES ... ON
CONFLICT (club_id, user_id) DO UPDATE SET role = $r`: update the
existing row for the user if there is one, insert otherwise. -/
def upsertRole (mems : List Mem) (uid r : String) : List Mem :=
  if uid ∈ usersOf mems then updRole mems uid r else mems ++ [⟨uid, r⟩]

/-- `SELECT id FROM users WHERE email = $1` (add-leader handler). -/
def findUserByEmail (users : List (String × String)) (email : String) : Option String :=
  (users.find? (fun u => u.2 == email)).map Prod.fst

/-- Early-return section of POST /api/clubs/[id]/claim: the userId and
confirmation guards, the existence lookup and the `is_claimed` check
(`route.ts` lines 14-48).  Returns the error response, or `none` when
the handler proceeds to the write section. -/
def claimCheck (db : DB) (userId : String) (confirmed : Bool) : Option Res :=
  if userId = "" then some (Res.err 400 "User ID required")
  else if ¬confirmed then
    some (Res.err 400 "You must confirm that you are the president of this club")
  else
    match db.club with
    | none => some (Res.err 404 "Club not found")
    | some c =>
      if c.claimed then some (Res.err 409 "Club is already claimed")
      else none

/-- Write section of POST /api/clubs/[id]/claim (`route.ts` lines
50-66): `UPDATE clubs SET is_claimed = TRUE, president_id = $1` —
unconditional, no `AND is_claimed = FALSE` — then the president-row
upsert, in one transaction. -/
def claimWrite (db : DB) (userId : String) : DB :=
  match db.club with
  | none => db
  | some c =>
    { db with club := some { c with
        claimed := true
        president := some userId
        mems := upsertRole c.mems userId "president" } }

/-- POST /api/clubs/[id]/claim, check section then write section. -/
def claimClub (db : DB) (userId : String) (confirmed : Bool) : Res × DB :=
  match claimCheck db userId confirmed with
  | some e => (e, db)
  | none => (Res.ok, claimWrite db userId)

/-- The interleaving of two concurrent claim calls in which both
handlers run their check section against the initial state before
either runs its write section (the `SELECT is_claimed` happens outside
the write transaction, and the `UPDATE` is not conditioned on
`is_claimed = FALSE`, so nothing forces a check to observe the write of
the other call).  Both calls use `confirmed = true`. -/
def runConcurrentClaims (db : DB) (u1 u2 : String) : Res × Res × DB :=
  match claimCheck db u1 true, claimCheck db u2 true with
  | none, none => (Res.ok, Res.ok, claimWrite (claimWrite db u1) u2)
  | none, some e2 => (Res.ok, e2, claimWrite db u1)
  | some e1, none => (e1, Res.ok, claimWrite db u2)
  | some e1, some e2 => (e1, e2, db)

/-- POST /api/clubs/[id]/join: userId guard, club existence, user
existence, already-member check, then insert with role `member`. -/
def joinClub (db : DB) (userId : String) : Res × DB :=
  if userId = "" then (Res.err 400 "User ID required", db)
  else
    match db.club with
    | none => (Res.err 404 "Club not found", db)
    | some c =>
      if ¬ (∃ u ∈ db.users, u.1 = userId) then
        (Res.err 404 "User not found in database. Please ensure you are logged in properly and try again.", db)
      else if userId ∈ usersOf c.mems then
        (Res.err 409 "Already a member of this club", db)
      else
        (Res.ok, { db with club := some { c with mems := c.mems ++ [⟨userId, "member"⟩] } })

/-- DELETE /api/clubs/[id]/join: userId guard, club existence,
president guard (`president_id === userId`), then the DELETE; a zero
row count is reported as not-a-member. -/
def leaveClub (db : DB) (userId : String) : Res × DB :=
  if userId = "" then (Res.err 400 "User ID required", db)
  else
    match db.club with
    | none => (Res.err 404 "Club not found", db)
    | some c =>
      if c.president = some userId then
        (Res.err 403 "President cannot leave club. Transfer presidency first.", db)
      else
        let remaining := c.mems.filter (fun m => ¬ m.user = userId)
        if c.mems.length - remaining.length = 0 then
          (Res.err 404 "Not a member of this club", db)
        else
          (Res.ok, { db with club := some { c with mems := remaining } })

/-- Whitelist of the PUT role-update handler: note that `president` is
in the list. -/
def validRoles : List String := ["member", "officer", "vice_president", "president"]

/-- Whitelist of the add-leader handler. -/
def validLeaderRoles : List String := ["officer", "vice_president"]

/-- PUT /api/clubs/[id]/members/[memberId]/role: field guards, role
whitelist, club existence, president authorization; then either the
inline presidency transfer (when `role = president`: demote the caller
to officer, promote the target, repoint `president_id`) or the plain
role update.  Neither branch checks that `memberId` has a membership
row, and the plain branch does not forbid `memberId = updatedBy`. -/
def updateMemberRole (db : DB) (memberId role updatedBy : String) : Res × DB :=
  if role = "" ∨ updatedBy = "" then (Res.err 400 "Role and updatedBy are required", db)
  else if role ∉ validRoles then (Res.err 400 "Invalid role", db)
  else
    match db.club with
    | none => (Res.err 404 "Club not found", db)
    | some c =>
      if ¬ c.president = some updatedBy then
        (Res.err 403 "Only the club president can update member roles", db)
      else if role = "president" then
        (Res.ok, { db with club := some { c with
            mems := updRole (updRole c.mems updatedBy "officer") memberId "president"
            president := some memberId } })
      else
        (Res.ok, { db with club := some { c with mems := updRole c.mems memberId role } })

/-- POST /api/clubs/[id]/members/add-leader: field guards, leader-role
whitelist, club existence, president authorization, user lookup by
email, then update-or-insert of the membership row.  The `clubs` row is
never written. -/
def addLeader (db : DB) (email role addedBy : String) : Res × DB :=
  if email = "" ∨ role = "" ∨ addedBy = "" then
    (Res.err 400 "Email, role, and addedBy are required", db)
  else if role ∉ validLeaderRoles then (Res.err 400 "Invalid leadership role", db)
  else
    match db.club with
    | none => (Res.err 404 "Club not found", db)
    | some c =>
      if ¬ c.president = some addedBy then
        (Res.err 403 "Only the club president can add leaders", db)
      else
        match findUserByEmail db.users email with
        | none => (Res.err 404 "User with this email not found. They need to log in first.", db)
        | some uid =>
          if uid ∈ usersOf c.mems then
            (Res.ok, { db with club := some { c with mems := updRole c.mems uid role } })
          else
            (Res.ok, { db with club := some { c with mems := c.mems ++ [⟨uid, role⟩] } })

/-- Client-side guard of `handleDemoteLeader` in the manage-leadership
dialog: a self-demotion is blocked in the browser before any request is
made. -/
def demoteLeaderClientGuard (leaderId currentUserId : String) : Bool :=
  leaderId == currentUserId

/-- Single-president invariant on one club, with the well-formedness
the schema guarantees (`UNIQUE(club_id, user_id)`): membership users
are distinct, the users of the president-role rows are exactly the
content of the nullable `president_id` reference, and `is_claimed`
agrees with `president_id` being set.  This forces the president-role
row count to be 0 or 1, to be 1 exactly when the club is claimed, and
the unique president row to name the club president. -/
def clubInv (c : Club) : Prop :=
  (usersOf c.mems).Nodup ∧ presUsers c.mems = c.president.toList ∧
    c.claimed = c.president.isSome

instance (c : Club) : Decidable (clubInv c) := by
  unfold clubInv; exact inferInstance

/-- The invariant, lifted to a database state. -/
def dbInv (db : DB) : Prop :=
  match db.club with
  | none => True
  | some c => clubInv c

instance (db : DB) : Decidable (dbInv db) := by
  unfold dbInv
  cases db.club
  · exact inferInstance
  · exact inferInstance

/-- States reachable by the public operations from a freshly created
club (POST /api/clubs inserts with `is_claimed = FALSE`, no president,
and no membership rows), over an arbitrary `users` table. -/
inductive Reach : DB → Prop where
  | init (users : List (String × String)) : Reach ⟨users, some ⟨false, none, []⟩⟩
  | claimStep (db : DB) (u : String) (conf : Bool) :
      Reach db → Reach (claimClub db u conf).2
  | joinStep (db : DB) (u : String) : Reach db → Reach (joinClub db u).2
  | leaveStep (db : DB) (u : String) : Reach db → Reach (leaveClub db u).2
  | roleStep (db : DB) (memberId role updatedBy : String) :
      Reach db → Reach (updateMemberRole db memberId role updatedBy).2
  | addLeaderStep (db : DB) (email role addedBy : String) :
      Reach db → Reach (addLeader db email role addedBy).2

/-
Concrete states used to evaluate the operations.
-/

/-- A two-user `users` table. -/
def usersAB : List (String × String) :=
  [("alice", "alice@school.edu"), ("bob", "bob@school.edu")]

/-- No club with the requested id. -/
def dbNone : DB := ⟨usersAB, none⟩

/-- A freshly created club: unclaimed, no president, no members. -/
def dbFresh : DB := ⟨usersAB, some ⟨false, none, []⟩⟩

/-- A club claimed by alice: the state `claimClub` produces from
`dbFresh`. -/
def claimedClub : Club := ⟨true, some "alice", [⟨"alice", "president"⟩]⟩

/-- Database holding `claimedClub`. -/
def dbClaimed : DB := ⟨usersAB, some claimedClub⟩

/-- The claimed club after bob joins as a plain member. -/
def twoClub : Club :=
  ⟨true, some "alice", [⟨"alice", "president"⟩, ⟨"bob", "member"⟩]⟩

/-- Database holding `twoClub`. -/
def dbTwo : DB := ⟨usersAB, some twoClub⟩

/-
List-level lemmas about the row operations.
-/

theorem usersOf_cons (m : Mem) (t : List Mem) :
    usersOf (m :: t) = m.user :: usersOf t := rfl

theorem updRole_cons (m : Mem) (t : List Mem) (uid r : String) :
    updRole (m :: t) uid r =
      (if m.user = uid then { m with role := r } else m) :: updRole t uid r := rfl

theorem presUsers_cons (m : Mem) (t : List Mem) :
    presUsers (m :: t) =
      if m.role = "president" then m.user :: presUsers t else presUsers t := by
  by_cases hp : m.role = "president" <;> simp [presUsers, List.filter_cons, hp]

theorem roleOf_cons (m : Mem) (t : List Mem) (uid : String) :
    roleOf (m :: t) uid = if m.user = uid then some m.role else roleOf t uid := by
  by_cases h : m.user = uid <;> simp [roleOf, List.find?_cons, h]

theorem usersOf_updRole (mems : List Mem) (uid r : String) :
    usersOf (updRole mems uid r) = usersOf mems := by
  induction mems with
  | nil => rfl
  | cons m t ih =>
    by_cases h : m.user = uid <;> simp [updRole_cons, usersOf_cons, h, ih]

theorem length_updRole (mems : List Mem) (uid r : String) :
    (updRole mems uid r).length = mems.length := by
  simp [updRole]

theorem presUsers_append (l₁ l₂ : List Mem) :
    presUsers (l₁ ++ l₂) = presUsers l₁ ++ presUsers l₂ := by
  simp [presUsers]

theorem usersOf_append (l : List Mem) (u r : String) :
    usersOf (l ++ [⟨u, r⟩]) = usersOf l ++ [u] := by
  simp [usersOf]

theorem presUsers_updRole_of_ne (mems : List Mem) (uid r : String)
    (h : r ≠ "president") :
    presUsers (updRole mems uid r) = (presUsers mems).filter (fun x => ¬ x = uid) := by
  induction mems with
  | nil => rfl
  | cons m t ih =>
    by_cases hu : m.user = uid <;> by_cases hp : m.role = "president" <;>
      simp [updRole_cons, presUsers_cons, List.filter_cons, hu, hp, h, ih]

theorem presUsers_updRole_pres (mems : List Mem) (uid : String)
    (h : presUsers mems = []) :
    presUsers (updRole mems uid "president") = (usersOf mems).filter (fun x => x = uid) := by
  induction mems with
  | nil => rfl
  | cons m t ih =>
    have hm : ¬ m.role = "president" := by
      intro hp
      rw [presUsers_cons, if_pos hp] at h
      cases h
    rw [presUsers_cons, if_neg hm] at h
    by_cases hu : m.user = uid <;>
      simp [updRole_cons, presUsers_cons, usersOf_cons, List.filter_cons, hu, hm, ih h]

theorem updRole_of_not_mem (mems : List Mem) (uid r : String)
    (h : uid ∉ usersOf mems) :
    updRole mems uid r = mems := by
  induction mems with
  | nil => rfl
  | cons m t ih =>
    simp only [usersOf_cons, List.mem_cons] at h
    push_neg at h
    have h1 : ¬ m.user = uid := fun e => h.1 e.symm
    rw [updRole_cons, if_neg h1, ih h.2]

theorem filter_eq_singleton_of_nodup {l : List String} {a : String}
    (h : l.Nodup) (hm : a ∈ l) :
    l.filter (fun x => x = a) = [a] := by
  induction l with
  | nil => cases hm
  | cons b t ih =>
    rcases List.mem_cons.mp hm with hb | ht
    · have hn : t.filter (fun x => x = a) = [] := by
        rw [List.filter_eq_nil_iff]
        intro x hx
        simp only [decide_eq_true_eq]
        intro hxa
        apply (List.nodup_cons.mp h).1
        rw [← hb, ← hxa]
        exact hx
      have hba : b = a := hb.symm
      simp [List.filter_cons, hba, hn]
    · have hb : ¬ b = a := fun hba => (List.nodup_cons.mp h).1 (by rw [hba]; exact ht)
      simp [List.filter_cons, hb, ih (List.nodup_cons.mp h).2 ht]

theorem roleOf_updRole_self (mems : List Mem) (uid r : String)
    (h : uid ∈ usersOf mems) :
    roleOf (updRole mems uid r) uid = some r := by
  induction mems with
  | nil => cases h
  | cons m t ih =>
    by_cases hu : m.user = uid
    · simp [updRole_cons, roleOf_cons, hu]
    · have ht : uid ∈ usersOf t := by
        rcases List.mem_cons.mp h with h1 | h1
        · exact absurd h1.symm hu
        · exact h1
      simp [updRole_cons, roleOf_cons, hu, ih ht]

theorem roleOf_updRole_other (mems : List Mem) (uid r v : String)
    (h : v ≠ uid) :
    roleOf (updRole mems uid r) v = roleOf mems v := by
  induction mems with
  | nil => rfl
  | cons m t ih =>
    by_cases hu : m.user = uid
    · have hv : ¬ m.user = v := fun e => h (e.symm.trans hu)
      have hv2 : ¬ ({ m with role := r } : Mem).user = v := hv
      rw [updRole_cons, if_pos hu, roleOf_cons, if_neg hv2, roleOf_cons, if_neg hv]
      exact ih
    · by_cases hv : m.user = v
      · rw [updRole_cons, if_neg hu, roleOf_cons, if_pos hv, roleOf_cons, if_pos hv]
      · rw [updRole_cons, if_neg hu, roleOf_cons, if_neg hv, roleOf_cons, if_neg hv]
        exact ih

theorem roleOf_append_self (mems : List Mem) (uid r : String)
    (h : uid ∉ usersOf mems) :
    roleOf (mems ++ [⟨uid, r⟩]) uid = some r := by
  induction mems with
  | nil => simp [roleOf_cons]
  | cons m t ih =>
    simp only [usersOf_cons, List.mem_cons] at h
    push_neg at h
    have h1 : ¬ m.user = uid := fun e => h.1 e.symm
    rw [List.cons_append, roleOf_cons, if_neg h1, ih h.2]

theorem filter_user_length_lt (mems : List Mem) (w : String)
    (h : w ∈ usersOf mems) :
    (mems.filter (fun m => ¬ m.user = w)).length < mems.length := by
  induction mems with
  | nil => cases h
  | cons m t ih =>
    by_cases hw : m.user = w
    · have heq : List.filter (fun m => ¬ m.user = w) (m :: t) =
          List.filter (fun m => ¬ m.user = w) t := by
        simp [List.filter_cons, hw]
      rw [heq, List.length_cons]
      exact Nat.lt_succ_of_le (List.length_filter_le _ t)
    · have ht : w ∈ usersOf t := by
        rcases List.mem_cons.mp h with h1 | h1
        · exact absurd h1.symm hw
        · exact h1
      have heq : List.filter (fun m => ¬ m.user = w) (m :: t) =
          m :: List.filter (fun m => ¬ m.user = w) t := by
        simp [List.filter_cons, hw]
      rw [heq, List.length_cons, List.length_cons]
      exact Nat.succ_lt_succ (ih ht)

theorem filter_user_of_not_mem (mems : List Mem) (w : String)
    (h : w ∉ usersOf mems) :
    mems.filter (fun m => ¬ m.user = w) = mems := by
  induction mems with
  | nil => rfl
  | cons m t ih =>
    simp only [usersOf_cons, List.mem_cons] at h
    push_neg at h
    have h1 : ¬ m.user = w := fun e => h.1 e.symm
    have heq : List.filter (fun m => ¬ m.user = w) (m :: t) =
        m :: List.filter (fun m => ¬ m.user = w) t := by
      simp [List.filter_cons, h1]
    rw [heq, ih h.2]

theorem presUsers_filter_ne (mems : List Mem) (uid : String) :
    presUsers (mems.filter (fun m => ¬ m.user = uid)) =
      (presUsers mems).filter (fun x => ¬ x = uid) := by
  induction mems with
  | nil => rfl
  | cons m t ih =>
    simp only [decide_not] at ih
    by_cases hu : m.user = uid <;> by_cases hp : m.role = "president" <;>
      simp [presUsers_cons, List.filter_cons, hu, hp, ih]

theorem updRole_updRole_same (mems : List Mem) (uid r1 r2 : String) :
    updRole (updRole mems uid r1) uid r2 = updRole mems uid r2 := by
  induction mems with
  | nil => rfl
  | cons m t ih =>
    by_cases h : m.user = uid <;> simp [updRole_cons, h, ih]

theorem updRole_eq_self (mems : List Mem) (uid r : String)
    (h : ∀ m ∈ mems, m.user = uid → m.role = r) :
    updRole mems uid r = mems := by
  induction mems with
  | nil => rfl
  | cons m t ih =>
    have ht : updRole t uid r = t :=
      ih fun m hm => h m (List.mem_cons_of_mem _ hm)
    by_cases hu : m.user = uid
    · have hr : m.role = r := h m (List.mem_cons_self _ _) hu
      cases m
      simp_all [updRole_cons]
    · simp [updRole_cons, hu, ht]

theorem eq_of_user_eq_of_nodup {mems : List Mem} (h : (usersOf mems).Nodup)
    {m1 m2 : Mem} (h1 : m1 ∈ mems) (h2 : m2 ∈ mems) (hu : m1.user = m2.user) :
    m1 = m2 := by
  induction mems with
  | nil => cases h1
  | cons m t ih =>
    have hn := List.nodup_cons.mp (by simpa [usersOf_cons] using h)
    rcases List.mem_cons.mp h1 with e1 | e1 <;> rcases List.mem_cons.mp h2 with e2 | e2
    · rw [e1, e2]
    · exact absurd
        (by have h3 := List.mem_map_of_mem Mem.user e2; rw [← hu, e1] at h3; exact h3) hn.1
    · exact absurd
        (by have h3 := List.mem_map_of_mem Mem.user e1; rw [hu, e2] at h3; exact h3) hn.1
    · exact ih (by simpa [usersOf_cons] using h.of_cons) e1 e2

theorem mem_of_mem_presUsers {mems : List Mem} {u : String}
    (h : u ∈ presUsers mems) :
    ∃ m ∈ mems, m.user = u ∧ m.role = "president" := by
  simp only [presUsers, List.mem_map, List.mem_filter, beq_iff_eq] at h
  obtain ⟨m, ⟨hm, hr⟩, hu⟩ := h
  exact ⟨m, hm, hu, hr⟩

theorem user_mem_usersOf {mems : List Mem} {m : Mem} (h : m ∈ mems) :
    m.user ∈ usersOf mems :=
  List.mem_map_of_mem Mem.user h

theorem roleOf_upsertRole_self (mems : List Mem) (u r : String) :
    roleOf (upsertRole mems u r) u = some r := by
  unfold upsertRole
  by_cases h : u ∈ usersOf mems
  · rw [if_pos h]
    exact roleOf_updRole_self mems u r h
  · rw [if_neg h]
    exact roleOf_append_self mems u r h

theorem usersOf_upsertRole_mem (mems : List Mem) (u r : String)
    (h : u ∈ usersOf mems) :
    usersOf (upsertRole mems u r) = usersOf mems := by
  rw [upsertRole, if_pos h, usersOf_updRole]

theorem usersOf_upsertRole_not_mem (mems : List Mem) (u r : String)
    (h : u ∉ usersOf mems) :
    usersOf (upsertRole mems u r) = usersOf mems ++ [u] := by
  rw [upsertRole, if_neg h, usersOf_append]

/-
Claim theorems.
-/

/-- C6: claiming an existing unclaimed club with the confirmation flag
set succeeds and, in one unit, marks the club claimed, points the
president reference at the claiming user, and upserts the membership
row for that user to role president: an existing row is overwritten
(the user column is unchanged) and otherwise a single new row is
appended. -/
theorem claim_postcondition (db : DB) (c : Club) (u : String)
    (hdb : db.club = some c) (hcl : c.claimed = false) (hu : u ≠ "") :
    (claimClub db u true).1 = Res.ok ∧
    (claimClub db u true).2.club =
      some ⟨true, some u, upsertRole c.mems u "president"⟩ ∧
    roleOf (upsertRole c.mems u "president") u = some "president" ∧
    (u ∈ usersOf c.mems →
      usersOf (upsertRole c.mems u "president") = usersOf c.mems) ∧
    (u ∉ usersOf c.mems →
      usersOf (upsertRole c.mems u "president") = usersOf c.mems ++ [u]) := by
  have hcheck : claimCheck db u true = none := by
    simp [claimCheck, hu, hdb, hcl]
  refine ⟨?_, ?_, roleOf_upsertRole_self c.mems u "president",
    usersOf_upsertRole_mem c.mems u "president",
    usersOf_upsertRole_not_mem c.mems u "president"⟩
  · simp [claimClub, hcheck]
  · simp [claimClub, hcheck, claimWrite, hdb]

/-- Closed instance of C6: alice claims the fresh club. -/
theorem claim_postcondition_witness :
    (claimClub dbFresh "alice" true).1 = Res.ok ∧
    (claimClub dbFresh "alice" true).2.club =
      some ⟨true, some "alice", upsertRole [] "alice" "president"⟩ ∧
    roleOf (upsertRole [] "alice" "president") "alice" = some "president" ∧
    usersOf (upsertRole [] "alice" "president") = usersOf [] ++ ["alice"] := by
  have h := claim_postcondition dbFresh ⟨false, none, []⟩ "alice" rfl rfl (by decide)
  exact ⟨h.1, h.2.1, h.2.2.1, h.2.2.2.2 (by decide)⟩

/-- C7: the claim endpoint reports a missing confirmation flag as a 400,
a missing club as a 404, and an already-claimed club as a 409 distinct
from the 404, and every failure path returns before the write section,
leaving the state unchanged. -/
theorem claim_error_conditions (db : DB) (userId : String) :
    (∀ confirmed : Bool, userId ≠ "" → confirmed = false →
      claimClub db userId confirmed =
        (Res.err 400 "You must confirm that you are the president of this club", db)) ∧
    (userId ≠ "" → db.club = none →
      claimClub db userId true = (Res.err 404 "Club not found", db)) ∧
    (∀ c, userId ≠ "" → db.club = some c → c.claimed = true →
      claimClub db userId true = (Res.err 409 "Club is already claimed", db)) ∧
    (Res.err 409 "Club is already claimed" ≠ Res.err 404 "Club not found") := by
  refine ⟨?_, ?_, ?_, by decide⟩
  · intro confirmed h1 h2
    simp [claimClub, claimCheck, h1, h2]
  · intro h1 h2
    simp [claimClub, claimCheck, h1, h2]
  · intro c h1 h2 h3
    simp [claimClub, claimCheck, h1, h2, h3]

/-- Closed instance of C7: the three failure responses on concrete
states. -/
theorem claim_error_conditions_witness :
    claimClub dbFresh "alice" false =
      (Res.err 400 "You must confirm that you are the president of this club", dbFresh) ∧
    claimClub dbNone "alice" true = (Res.err 404 "Club not found", dbNone) ∧
    claimClub dbClaimed "bob" true = (Res.err 409 "Club is already claimed", dbClaimed) := by
  refine ⟨?_, ?_, ?_⟩
  · exact (claim_error_conditions dbFresh "alice").1 false (by decide) rfl
  · exact (claim_error_conditions dbNone "alice").2.1 (by decide) rfl
  · exact (claim_error_conditions dbClaimed "bob").2.2.1 claimedClub (by decide) rfl rfl

/-- C8: leaving is refused with a 403 for the user named by the club
president reference (state unchanged), refused with a 404 for a user
with no membership row (state unchanged), and for any other member it
deletes exactly the rows of that user. -/
theorem leave_blocks_president (db : DB) (c : Club) (hdb : db.club = some c) :
    (∀ u, u ≠ "" → c.claimed = true → c.president = some u →
      leaveClub db u =
        (Res.err 403 "President cannot leave club. Transfer presidency first.", db)) ∧
    (∀ w, w ≠ "" → c.president ≠ some w → w ∉ usersOf c.mems →
      leaveClub db w = (Res.err 404 "Not a member of this club", db)) ∧
    (∀ w, w ≠ "" → c.president ≠ some w → w ∈ usersOf c.mems →
      (leaveClub db w).1 = Res.ok ∧
      (leaveClub db w).2.club =
        some ⟨c.claimed, c.president, c.mems.filter (fun m => ¬ m.user = w)⟩) := by
  refine ⟨?_, ?_, ?_⟩
  · intro u hu _ hp
    simp [leaveClub, hu, hdb, hp]
  · intro w hw hp hnm
    have hf := filter_user_of_not_mem c.mems w hnm
    simp only [decide_not] at hf
    simp [leaveClub, hw, hdb, hp, hf]
  · intro w hw hp hm
    have hne : ¬ (c.mems.length - (c.mems.filter (fun m => ¬ m.user = w)).length = 0) :=
      Nat.sub_ne_zero_of_lt (filter_user_length_lt c.mems w hm)
    simp only [decide_not] at hne
    constructor
    · simp [leaveClub, hw, hdb, hp, hne]
    · simp [leaveClub, hw, hdb, hp, hne]

/-- Closed instance of C8 on the two-member club: alice (president)
cannot leave, a stranger gets not-a-member, bob leaves and only his row
is deleted. -/
theorem leave_blocks_president_witness :
    leaveClub dbTwo "alice" =
      (Res.err 403 "President cannot leave club. Transfer presidency first.", dbTwo) ∧
    leaveClub dbTwo "carol" = (Res.err 404 "Not a member of this club", dbTwo) ∧
    (leaveClub dbTwo "bob").1 = Res.ok ∧
    (leaveClub dbTwo "bob").2.club =
      some ⟨twoClub.claimed, twoClub.president,
        twoClub.mems.filter (fun m => ¬ m.user = "bob")⟩ := by
  have h := leave_blocks_president dbTwo twoClub rfl
  exact ⟨h.1 "alice" (by decide) rfl rfl,
    h.2.1 "carol" (by decide) (by decide) (by decide),
    (h.2.2 "bob" (by decide) (by decide) (by decide)).1,
    (h.2.2 "bob" (by decide) (by decide) (by decide)).2⟩

/-- C2 counterexample: with alice president and bob a plain member, a
role update to president by alice is not rejected with the invalid-role
error; it succeeds and changes the state. -/
theorem role_update_president_accepted :
    (updateMemberRole dbTwo "bob" "president" "alice").1 = Res.ok ∧
    (updateMemberRole dbTwo "bob" "president" "alice").2 ≠ dbTwo ∧
    (updateMemberRole dbTwo "bob" "president" "alice").1 ≠
      Res.err 400 "Invalid role" := by
  decide

/-- C2 amended: `president` is in the role-update whitelist; a role
update to president by the current president succeeds and performs the
presidency transfer inline (caller demoted to officer, target promoted,
president reference repointed); only a role string outside the
whitelist draws the invalid-role error. -/
theorem role_update_president_transfers (db : DB) (c : Club) (target acting : String)
    (hdb : db.club = some c) (hpres : c.president = some acting) (ha : acting ≠ "") :
    (updateMemberRole db target "president" acting).1 = Res.ok ∧
    (updateMemberRole db target "president" acting).2.club =
      some ⟨c.claimed, some target,
        updRole (updRole c.mems acting "officer") target "president"⟩ ∧
    (∀ r, r ∉ validRoles → r ≠ "" →
      updateMemberRole db target r acting = (Res.err 400 "Invalid role", db)) := by
  have hmem : "president" ∈ validRoles := by decide
  refine ⟨?_, ?_, ?_⟩
  · simp [updateMemberRole, ha, hmem, hdb, hpres]
  · simp [updateMemberRole, ha, hmem, hdb, hpres]
  · intro r hr hre
    simp [updateMemberRole, hre, ha, hr]

/-- Closed instance of the amended C2. -/
theorem role_update_president_transfers_witness :
    (updateMemberRole dbTwo "bob" "president" "alice").1 = Res.ok ∧
    (updateMemberRole dbTwo "bob" "president" "alice").2.club =
      some ⟨twoClub.claimed, some "bob",
        updRole (updRole twoClub.mems "alice" "officer") "bob" "president"⟩ ∧
    updateMemberRole dbTwo "bob" "admin" "alice" = (Res.err 400 "Invalid role", dbTwo) := by
  have h := role_update_president_transfers dbTwo twoClub "bob" "alice" rfl rfl (by decide)
  exact ⟨h.1, h.2.1, h.2.2 "admin" (by decide) (by decide)⟩

/-- C3: when the acting user is the current president, the target is a
different user with a membership row, and the outgoing president also
has a membership row, the transfer succeeds, keeps the membership count
unchanged, demotes the outgoing president to officer, makes the target
president, and repoints the president reference at the target. -/
theorem transfer_postcondition (db : DB) (c : Club) (acting target : String)
    (hdb : db.club = some c) (hpres : c.president = some acting) (ha : acting ≠ "")
    (hne : target ≠ acting)
    (hact : acting ∈ usersOf c.mems) (htgt : target ∈ usersOf c.mems) :
    (updateMemberRole db target "president" acting).1 = Res.ok ∧
    ∃ c2, (updateMemberRole db target "president" acting).2.club = some c2 ∧
      c2.mems.length = c.mems.length ∧
      roleOf c2.mems acting = some "officer" ∧
      roleOf c2.mems target = some "president" ∧
      c2.president = some target := by
  have hmem : "president" ∈ validRoles := by decide
  refine ⟨by simp [updateMemberRole, ha, hmem, hdb, hpres],
    ⟨c.claimed, some target,
      updRole (updRole c.mems acting "officer") target "president"⟩,
    by simp [updateMemberRole, ha, hmem, hdb, hpres], ?_, ?_, ?_, rfl⟩
  · rw [length_updRole, length_updRole]
  · rw [roleOf_updRole_other _ _ _ _ (fun e => hne e.symm)]
    exact roleOf_updRole_self _ _ _ hact
  · exact roleOf_updRole_self _ _ _ (by rw [usersOf_updRole]; exact htgt)

/-- Closed instance of C3: alice transfers the presidency to bob. -/
theorem transfer_postcondition_witness :
    (updateMemberRole dbTwo "bob" "president" "alice").1 = Res.ok ∧
    (updateMemberRole dbTwo "bob" "president" "alice").2.club =
      some ⟨true, some "bob", [⟨"alice", "officer"⟩, ⟨"bob", "president"⟩]⟩ ∧
    roleOf [(⟨"alice", "officer"⟩ : Mem), ⟨"bob", "president"⟩] "alice" = some "officer" ∧
    roleOf [(⟨"alice", "officer"⟩ : Mem), ⟨"bob", "president"⟩] "bob" = some "president" := by
  have h := transfer_postcondition dbTwo twoClub "alice" "bob" rfl rfl (by decide)
    (by decide) (by decide) (by decide)
  exact ⟨h.1, by decide, by decide, by decide⟩

/-- C4 counterexample: with alice president of the claimed club and bob
holding no membership row, a transfer to bob is not rejected — there is
no target-not-member error anywhere in the handler — and the state
changes. -/
theorem transfer_to_non_member_accepted :
    (updateMemberRole dbClaimed "bob" "president" "alice").1 = Res.ok ∧
    (updateMemberRole dbClaimed "bob" "president" "alice").2 ≠ dbClaimed := by
  decide

/-- C4 amended: a transfer to a user without a membership row succeeds:
the outgoing president is demoted to officer, no row is created for the
target, the president reference is repointed at the target, and the
claimed club is left with zero president-role membership rows. -/
theorem transfer_to_non_member_effect (db : DB) (c : Club) (acting target : String)
    (hdb : db.club = some c) (hpres : c.president = some acting) (ha : acting ≠ "")
    (hinv : clubInv c) (htgt : target ∉ usersOf c.mems) :
    (updateMemberRole db target "president" acting).1 = Res.ok ∧
    (updateMemberRole db target "president" acting).2.club =
      some ⟨c.claimed, some target,
        updRole (updRole c.mems acting "officer") target "president"⟩ ∧
    c.claimed = true ∧
    usersOf (updRole (updRole c.mems acting "officer") target "president") =
      usersOf c.mems ∧
    presUsers (updRole (updRole c.mems acting "officer") target "president") = [] := by
  have hmem : "president" ∈ validRoles := by decide
  have hP : presUsers c.mems = [acting] := by
    have h2 := hinv.2.1
    rw [hpres] at h2
    simpa using h2
  have hcl : c.claimed = true := by
    have h2 := hinv.2.2
    rw [hpres] at h2
    simpa using h2
  have h1 : presUsers (updRole c.mems acting "officer") = [] := by
    rw [presUsers_updRole_of_ne _ _ _ (by decide), hP]
    simp
  have htgt1 : target ∉ usersOf (updRole c.mems acting "officer") := by
    rw [usersOf_updRole]
    exact htgt
  have h2 : updRole (updRole c.mems acting "officer") target "president" =
      updRole c.mems acting "officer" :=
    updRole_of_not_mem _ _ _ htgt1
  refine ⟨by simp [updateMemberRole, ha, hmem, hdb, hpres],
    by simp [updateMemberRole, ha, hmem, hdb, hpres], hcl, ?_, ?_⟩
  · rw [h2, usersOf_updRole]
  · rw [h2]
    exact h1

/-- Closed instance of the amended C4. -/
theorem transfer_to_non_member_effect_witness :
    (updateMemberRole dbClaimed "bob" "president" "alice").1 = Res.ok ∧
    (updateMemberRole dbClaimed "bob" "president" "alice").2.club =
      some ⟨true, some "bob", [⟨"alice", "officer"⟩]⟩ ∧
    presUsers [(⟨"alice", "officer"⟩ : Mem)] = [] := by
  have h := transfer_to_non_member_effect dbClaimed claimedClub "alice" "bob" rfl rfl
    (by decide) (by decide) (by decide)
  exact ⟨h.1, by decide, by decide⟩

/-- C5 counterexample: the role-update endpoint does not reject a
self-demotion by the president: it returns success and changes the
state. -/
theorem self_demotion_accepted :
    (updateMemberRole dbClaimed "alice" "member" "alice").1 = Res.ok ∧
    (updateMemberRole dbClaimed "alice" "member" "alice").2 ≠ dbClaimed := by
  decide

/-- C5 amended: neither self-transfer nor self-demotion is rejected by
the role-update endpoint.  A self-transfer returns success and happens
to leave the state unchanged; a self-demotion returns success, sets the
president membership row to member while the president reference still
names the caller — breaking the lockstep invariant — and is blocked
only by the client-side guard in the leadership dialog. -/
theorem self_transfer_self_demotion_behavior (db : DB) (c : Club) (u : String)
    (hdb : db.club = some c) (hpres : c.president = some u) (hu : u ≠ "")
    (hinv : clubInv c) :
    (updateMemberRole db u "president" u).1 = Res.ok ∧
    (updateMemberRole db u "president" u).2 = db ∧
    (updateMemberRole db u "member" u).1 = Res.ok ∧
    (updateMemberRole db u "member" u).2.club =
      some ⟨c.claimed, some u, updRole c.mems u "member"⟩ ∧
    roleOf (updRole c.mems u "member") u = some "member" ∧
    ¬ clubInv (⟨c.claimed, some u, updRole c.mems u "member"⟩ : Club) ∧
    demoteLeaderClientGuard u u = true := by
  have hmemP : "president" ∈ validRoles := by decide
  have hmemM : "member" ∈ validRoles := by decide
  have hP : presUsers c.mems = [u] := by
    have h2 := hinv.2.1
    rw [hpres] at h2
    simpa using h2
  have huMem : u ∈ usersOf c.mems := by
    obtain ⟨m, hm, hmu, _⟩ := mem_of_mem_presUsers (by rw [hP]; exact List.mem_singleton.mpr rfl)
    rw [← hmu]
    exact user_mem_usersOf hm
  have hurow : ∀ m ∈ c.mems, m.user = u → m.role = "president" := by
    intro m hm hmu
    obtain ⟨m2, hm2, hu2, hr2⟩ :=
      mem_of_mem_presUsers (show u ∈ presUsers c.mems by rw [hP]; exact List.mem_singleton.mpr rfl)
    have he : m = m2 := eq_of_user_eq_of_nodup hinv.1 hm hm2 (by rw [hmu, hu2])
    rw [he]
    exact hr2
  have e1 : updRole (updRole c.mems u "officer") u "president" = c.mems := by
    rw [updRole_updRole_same]
    exact updRole_eq_self _ _ _ hurow
  have hcback : (⟨c.claimed, some u, c.mems⟩ : Club) = c := by
    obtain ⟨cc, cp, cm⟩ := c
    change cp = some u at hpres
    subst hpres
    rfl
  refine ⟨by simp [updateMemberRole, hu, hmemP, hdb, hpres], ?_,
    by simp [updateMemberRole, hu, hmemM, hdb, hpres],
    by simp [updateMemberRole, hu, hmemM, hdb, hpres], ?_, ?_,
    by simp [demoteLeaderClientGuard]⟩
  · have hres : (updateMemberRole db u "president" u).2 =
        { db with club := some ⟨c.claimed, some u,
            updRole (updRole c.mems u "officer") u "president"⟩ } := by
      simp [updateMemberRole, hu, hmemP, hdb, hpres]
    rw [hres, e1, hcback]
    obtain ⟨us, cl⟩ := db
    change cl = some c at hdb
    subst hdb
    rfl
  · exact roleOf_updRole_self _ _ _ huMem
  · intro hinv2
    have h2 := hinv2.2.1
    rw [presUsers_updRole_of_ne _ _ _ (by decide), hP] at h2
    simp at h2

/-- Closed instance of the amended C5. -/
theorem self_transfer_self_demotion_witness :
    (updateMemberRole dbClaimed "alice" "president" "alice").1 = Res.ok ∧
    (updateMemberRole dbClaimed "alice" "president" "alice").2 = dbClaimed ∧
    (updateMemberRole dbClaimed "alice" "member" "alice").1 = Res.ok ∧
    (updateMemberRole dbClaimed "alice" "member" "alice").2.club =
      some ⟨true, some "alice", [⟨"alice", "member"⟩]⟩ ∧
    ¬ clubInv (⟨true, some "alice", [⟨"alice", "member"⟩]⟩ : Club) ∧
    demoteLeaderClientGuard "alice" "alice" = true := by
  have h := self_transfer_self_demotion_behavior dbClaimed claimedClub "alice" rfl rfl
    (by decide) (by decide)
  exact ⟨h.1, h.2.1, h.2.2.1, by decide, by decide, h.2.2.2.2.2.2⟩

/-- C9: the claim handler checks `is_claimed` with a plain SELECT and
then runs an unconditional UPDATE in a separate write section, so in
the interleaving where both concurrent calls pass the check before
either writes, both calls return success, the club ends up with two
president-role rows, and the invariant is broken — there is no atomic
conditional update making the claim single-winner. -/
theorem claim_race_two_successes :
    (runConcurrentClaims dbFresh "alice" "bob").1 = Res.ok ∧
    (runConcurrentClaims dbFresh "alice" "bob").2.1 = Res.ok ∧
    (runConcurrentClaims dbFresh "alice" "bob").2.2.club =
      some ⟨true, some "bob", [⟨"alice", "president"⟩, ⟨"bob", "president"⟩]⟩ ∧
    ¬ dbInv (runConcurrentClaims dbFresh "alice" "bob").2.2 := by
  decide

/-- C10: the add-leader endpoint accepts only the roles officer and
vice_president, rejecting president (and any other string) with the
invalid-leadership-role error; it succeeds only when the caller is the
club president reference; and it never writes the clubs record, so the
claimed flag and the president reference are unchanged by every call
and the number of president-role membership rows can only stay or
shrink. -/
theorem add_leader_properties (db : DB) (c : Club) (email role addedBy : String)
    (hdb : db.club = some c) :
    (email ≠ "" → addedBy ≠ "" →
      addLeader db email "president" addedBy =
        (Res.err 400 "Invalid leadership role", db)) ∧
    (email ≠ "" → role ≠ "" → addedBy ≠ "" → role ∉ validLeaderRoles →
      addLeader db email role addedBy = (Res.err 400 "Invalid leadership role", db)) ∧
    ((addLeader db email role addedBy).1 = Res.ok → c.president = some addedBy) ∧
    (∀ c2, (addLeader db email role addedBy).2.club = some c2 →
      c2.claimed = c.claimed ∧ c2.president = c.president ∧
      (presUsers c2.mems).length ≤ (presUsers c.mems).length) := by
  have hpe : ¬ ("president" : String) = "" := by decide
  have hpv : ("president" : String) ∉ validLeaderRoles := by decide
  refine ⟨?_, ?_, ?_, ?_⟩
  · intro he ha
    simp [addLeader, he, ha, hpe, hpv]
  · intro he hr ha hnv
    simp [addLeader, he, hr, ha, hnv]
  · intro hok
    by_cases h1 : email = "" ∨ role = "" ∨ addedBy = ""
    · simp [addLeader, h1] at hok
    · by_cases hB : role ∈ validLeaderRoles
      · by_cases h3 : c.president = some addedBy
        · exact h3
        · simp [addLeader, h1, hB, hdb, h3] at hok
      · simp [addLeader, h1, hB] at hok
  · intro c2 h2
    by_cases h1 : email = "" ∨ role = "" ∨ addedBy = ""
    · simp [addLeader, h1, hdb] at h2
      subst h2
      exact ⟨rfl, rfl, le_refl _⟩
    · by_cases hB : role ∈ validLeaderRoles
      · by_cases h3 : c.president = some addedBy
        · have hroles : role = "officer" ∨ role = "vice_president" := by
            simpa [validLeaderRoles] using hB
          have hrne : role ≠ "president" := by
            rcases hroles with rfl | rfl <;> decide
          cases hfind : findUserByEmail db.users email with
          | none =>
            simp [addLeader, h1, hB, hdb, h3, hfind] at h2
            subst h2
            exact ⟨rfl, rfl, le_refl _⟩
          | some uid =>
            by_cases hmem : uid ∈ usersOf c.mems
            · simp [addLeader, h1, hB, hdb, h3, hfind, hmem] at h2
              subst h2
              refine ⟨rfl, h3.symm, ?_⟩
              rw [presUsers_updRole_of_ne _ _ _ hrne]
              exact List.length_filter_le _ _
            · simp [addLeader, h1, hB, hdb, h3, hfind, hmem] at h2
              subst h2
              refine ⟨rfl, h3.symm, ?_⟩
              have hsingle : presUsers [(⟨uid, role⟩ : Mem)] = [] := by
                simp [presUsers, List.filter_cons, hrne]
              rw [presUsers_append, hsingle, List.append_nil]
        · simp [addLeader, h1, hB, hdb, h3] at h2
          subst h2
          exact ⟨rfl, rfl, le_refl _⟩
      · simp [addLeader, h1, hB, hdb] at h2
        subst h2
        exact ⟨rfl, rfl, le_refl _⟩

/-- Closed instance of C10. -/
theorem add_leader_properties_witness :
    addLeader dbTwo "bob@school.edu" "president" "alice" =
      (Res.err 400 "Invalid leadership role", dbTwo) ∧
    addLeader dbTwo "bob@school.edu" "admin" "alice" =
      (Res.err 400 "Invalid leadership role", dbTwo) ∧
    ((addLeader dbTwo "bob@school.edu" "officer" "alice").1 = Res.ok →
      twoClub.president = some "alice") ∧
    ((addLeader dbTwo "bob@school.edu" "officer" "alice").2.club =
        some ⟨true, some "alice", [⟨"alice", "president"⟩, ⟨"bob", "officer"⟩]⟩ →
      (⟨true, some "alice",
        [(⟨"alice", "president"⟩ : Mem), ⟨"bob", "officer"⟩]⟩ : Club).claimed = twoClub.claimed ∧
      (⟨true, some "alice",
        [(⟨"alice", "president"⟩ : Mem), ⟨"bob", "officer"⟩]⟩ : Club).president = twoClub.president ∧
      (presUsers [(⟨"alice", "president"⟩ : Mem), ⟨"bob", "officer"⟩]).length ≤
        (presUsers twoClub.mems).length) := by
  have h := add_leader_properties dbTwo twoClub "bob@school.edu" "officer" "alice" rfl
  have h2 := add_leader_properties dbTwo twoClub "bob@school.edu" "admin" "alice" rfl
  exact ⟨h.1 (by decide) (by decide),
    h2.2.1 (by decide) (by decide) (by decide) (by decide),
    h.2.2.1,
    h.2.2.2 ⟨true, some "alice", [⟨"alice", "president"⟩, ⟨"bob", "officer"⟩]⟩⟩

theorem nodup_append_singleton {l : List String} {u : String}
    (h : l.Nodup) (hm : u ∉ l) : (l ++ [u]).Nodup := by
  simp [List.nodup_append, h, hm]

theorem nodup_usersOf_filter (mems : List Mem) (q : Mem → Bool)
    (h : (usersOf mems).Nodup) : (usersOf (mems.filter q)).Nodup :=
  List.Nodup.sublist ((List.filter_sublist mems).map Mem.user) h

theorem presUsers_upsert_president (mems : List Mem) (u : String)
    (hP : presUsers mems = []) (hnd : (usersOf mems).Nodup) :
    presUsers (upsertRole mems u "president") = [u] := by
  unfold upsertRole
  by_cases hm : u ∈ usersOf mems
  · rw [if_pos hm, presUsers_updRole_pres _ _ hP,
      filter_eq_singleton_of_nodup hnd hm]
  · rw [if_neg hm, presUsers_append, hP]
    simp [presUsers, List.filter_cons]

theorem claimCheck_eq_none (db : DB) (u : String) (conf : Bool)
    (h : claimCheck db u conf = none) :
    u ≠ "" ∧ ∃ c, db.club = some c ∧ c.claimed = false := by
  unfold claimCheck at h
  by_cases h1 : u = ""
  · simp [h1] at h
  · by_cases h2 : conf = true
    · cases hc : db.club with
      | none =>
        rw [hc] at h
        simp [h1, h2] at h
      | some c =>
        rw [hc] at h
        by_cases h3 : c.claimed
        · simp [h1, h2, h3] at h
        · exact ⟨h1, c, rfl, by simpa using h3⟩
    · simp [h1, h2] at h

theorem claim_preserves_inv (db : DB) (u : String) (conf : Bool) (h : dbInv db) :
    dbInv (claimClub db u conf).2 := by
  cases hck : claimCheck db u conf with
  | some e => simpa [claimClub, hck] using h
  | none =>
    obtain ⟨hu, c, hc, hcl⟩ := claimCheck_eq_none db u conf hck
    have hinv : clubInv c := by simpa [dbInv, hc] using h
    have hpn : c.president = none := by
      cases hp : c.president with
      | none => rfl
      | some p =>
        have h2 := hinv.2.2
        rw [hp, hcl] at h2
        simp at h2
    have hP : presUsers c.mems = [] := by
      have h2 := hinv.2.1
      rw [hpn] at h2
      simpa using h2
    have hres : (claimClub db u conf).2 =
        { db with club := some ⟨true, some u, upsertRole c.mems u "president"⟩ } := by
      simp [claimClub, hck, claimWrite, hc]
    rw [hres]
    have hnodup : (usersOf (upsertRole c.mems u "president")).Nodup := by
      by_cases hm : u ∈ usersOf c.mems
      · rw [usersOf_upsertRole_mem _ _ _ hm]
        exact hinv.1
      · rw [usersOf_upsertRole_not_mem _ _ _ hm]
        exact nodup_append_singleton hinv.1 hm
    have hpres := presUsers_upsert_president c.mems u hP hinv.1
    simp [dbInv, clubInv, hnodup, hpres]

theorem join_preserves_inv (db : DB) (u : String) (h : dbInv db) :
    dbInv (joinClub db u).2 := by
  by_cases h1 : u = ""
  · simpa [joinClub, h1] using h
  · cases hc : db.club with
    | none => simpa [joinClub, h1, hc] using h
    | some c =>
      have hinv : clubInv c := by simpa [dbInv, hc] using h
      by_cases hex : ∃ x ∈ db.users, x.1 = u
      · by_cases hmem : u ∈ usersOf c.mems
        · simpa [joinClub, h1, hc, hex, hmem] using h
        · have hres : (joinClub db u).2 =
              { db with club := some ⟨c.claimed, c.president,
                  c.mems ++ [⟨u, "member"⟩]⟩ } := by
            simp [joinClub, h1, hc, hex, hmem]
          rw [hres]
          have hnodup : (usersOf (c.mems ++ [⟨u, "member"⟩])).Nodup := by
            rw [usersOf_append]
            exact nodup_append_singleton hinv.1 hmem
          have hsp : presUsers [(⟨u, "member"⟩ : Mem)] = [] := by
            have hne : ("member" : String) ≠ "president" := by decide
            simp [presUsers, List.filter_cons, hne]
          have hP2 : presUsers (c.mems ++ [⟨u, "member"⟩]) = c.president.toList := by
            rw [presUsers_append, hsp, List.append_nil]
            exact hinv.2.1
          simp [dbInv, clubInv, hnodup, hP2, hinv.2.2]
      · simpa [joinClub, h1, hc, hex] using h

theorem leave_preserves_inv (db : DB) (u : String) (h : dbInv db) :
    dbInv (leaveClub db u).2 := by
  by_cases h1 : u = ""
  · simpa [leaveClub, h1] using h
  · cases hc : db.club with
    | none => simpa [leaveClub, h1, hc] using h
    | some c =>
      have hinv : clubInv c := by simpa [dbInv, hc] using h
      by_cases hp : c.president = some u
      · simpa [leaveClub, h1, hc, hp] using h
      · by_cases hz : c.mems.length - (c.mems.filter (fun m => ¬ m.user = u)).length = 0
        · have hz2 := hz
          simp only [decide_not] at hz2
          simpa [leaveClub, h1, hc, hp, hz2] using h
        · have hz2 := hz
          simp only [decide_not] at hz2
          have hres : (leaveClub db u).2 =
              { db with club := some ⟨c.claimed, c.president,
                  c.mems.filter (fun m => ¬ m.user = u)⟩ } := by
            simp [leaveClub, h1, hc, hp, hz2]
          rw [hres]
          have hnodup : (usersOf (c.mems.filter (fun m => ¬ m.user = u))).Nodup :=
            nodup_usersOf_filter _ _ hinv.1
          have hP2 : presUsers (c.mems.filter (fun m => ¬ m.user = u)) =
              c.president.toList := by
            rw [presUsers_filter_ne, hinv.2.1]
            cases hpres : c.president with
            | none => simp
            | some p =>
              have hpu : ¬ p = u := fun e => hp (by rw [hpres, e])
              simp [List.filter_cons, hpu]
          simp only [decide_not] at hnodup hP2
          simp [dbInv, clubInv, hnodup, hP2, hinv.2.2]

theorem addLeader_preserves_inv (db : DB) (email r adder : String) (h : dbInv db)
    (hguard : ∀ c uid, db.club = some c →
      findUserByEmail db.users email = some uid → c.president ≠ some uid) :
    dbInv (addLeader db email r adder).2 := by
  by_cases h1 : email = "" ∨ r = "" ∨ adder = ""
  · simpa [addLeader, h1] using h
  · by_cases hB : r ∈ validLeaderRoles
    · cases hc : db.club with
      | none => simpa [addLeader, h1, hB, hc] using h
      | some c =>
        have hinv : clubInv c := by simpa [dbInv, hc] using h
        by_cases h3 : c.president = some adder
        · cases hfind : findUserByEmail db.users email with
          | none => simpa [addLeader, h1, hB, hc, h3, hfind] using h
          | some uid =>
            have hne : c.president ≠ some uid := hguard c uid hc hfind
            have hau : ¬ adder = uid := fun e => hne (by rw [← e]; exact h3)
            have hP : presUsers c.mems = [adder] := by
              have h2 := hinv.2.1
              rw [h3] at h2
              simpa using h2
            have hrne : r ≠ "president" := by
              have hr2 : r = "officer" ∨ r = "vice_president" := by
                simpa [validLeaderRoles] using hB
              rcases hr2 with rfl | rfl <;> decide
            by_cases hmem : uid ∈ usersOf c.mems
            · have hres : (addLeader db email r adder).2 =
                  { db with club := some ⟨c.claimed, c.president,
                      updRole c.mems uid r⟩ } := by
                simp [addLeader, h1, hB, hc, h3, hfind, hmem]
              rw [hres]
              have hnodup : (usersOf (updRole c.mems uid r)).Nodup := by
                rw [usersOf_updRole]
                exact hinv.1
              have hP2 : presUsers (updRole c.mems uid r) = c.president.toList := by
                rw [presUsers_updRole_of_ne _ _ _ hrne, hP, h3]
                simp [List.filter_cons, hau]
              simp [dbInv, clubInv, hnodup, hP2, hinv.2.2]
            · have hres : (addLeader db email r adder).2 =
                  { db with club := some ⟨c.claimed, c.president,
                      c.mems ++ [⟨uid, r⟩]⟩ } := by
                simp [addLeader, h1, hB, hc, h3, hfind, hmem]
              rw [hres]
              have hnodup : (usersOf (c.mems ++ [⟨uid, r⟩])).Nodup := by
                rw [usersOf_append]
                exact nodup_append_singleton hinv.1 hmem
              have hsingle : presUsers [(⟨uid, r⟩ : Mem)] = [] := by
                simp [presUsers, List.filter_cons, hrne]
              have hP2 : presUsers (c.mems ++ [⟨uid, r⟩]) = c.president.toList := by
                rw [presUsers_append, hsingle, List.append_nil]
                exact hinv.2.1
              simp [dbInv, clubInv, hnodup, hP2, hinv.2.2]
        · simpa [addLeader, h1, hB, hc, h3] using h
    · simpa [addLeader, h1, hB] using h

theorem role_update_preserves_inv (db : DB) (target r acting : String) (h : dbInv db)
    (hg1 : r = "president" → ∀ c, db.club = some c → target ∈ usersOf c.mems)
    (hg2 : r ≠ "president" → target ≠ acting) :
    dbInv (updateMemberRole db target r acting).2 := by
  by_cases h1 : r = "" ∨ acting = ""
  · simpa [updateMemberRole, h1] using h
  · by_cases hV : r ∈ validRoles
    · cases hc : db.club with
      | none => simpa [updateMemberRole, h1, hV, hc] using h
      | some c =>
        have hinv : clubInv c := by simpa [dbInv, hc] using h
        by_cases hA : c.president = some acting
        · have hP : presUsers c.mems = [acting] := by
            have h2 := hinv.2.1
            rw [hA] at h2
            simpa using h2
          have hclaimed : c.claimed = true := by
            have h2 := hinv.2.2
            rw [hA] at h2
            simpa using h2
          have hna : ¬ acting = "" := fun e => h1 (Or.inr e)
          by_cases hPr : r = "president"
          · subst hPr
            have htgt : target ∈ usersOf c.mems := hg1 rfl c hc
            have hres : (updateMemberRole db target "president" acting).2 =
                { db with club := some ⟨c.claimed, some target,
                    updRole (updRole c.mems acting "officer") target "president"⟩ } := by
              simp [updateMemberRole, h1, hna, hV, hc, hA]
            rw [hres]
            have hP1 : presUsers (updRole c.mems acting "officer") = [] := by
              rw [presUsers_updRole_of_ne _ _ _ (by decide), hP]
              simp
            have hP2 : presUsers
                (updRole (updRole c.mems acting "officer") target "president") =
                  [target] := by
              rw [presUsers_updRole_pres _ _ hP1, usersOf_updRole,
                filter_eq_singleton_of_nodup hinv.1 htgt]
            have hnodup : (usersOf
                (updRole (updRole c.mems acting "officer") target "president")).Nodup := by
              rw [usersOf_updRole, usersOf_updRole]
              exact hinv.1
            simp [dbInv, clubInv, hnodup, hP2, hclaimed]
          · have htna : target ≠ acting := hg2 hPr
            have hat : ¬ acting = target := fun e => htna e.symm
            have hres : (updateMemberRole db target r acting).2 =
                { db with club := some ⟨c.claimed, c.president,
                    updRole c.mems target r⟩ } := by
              simp [updateMemberRole, h1, hV, hc, hA, hPr]
            rw [hres]
            have hP2 : presUsers (updRole c.mems target r) = c.president.toList := by
              rw [presUsers_updRole_of_ne _ _ _ hPr, hP, hA]
              simp [List.filter_cons, hat]
            have hnodup : (usersOf (updRole c.mems target r)).Nodup := by
              rw [usersOf_updRole]
              exact hinv.1
            simp [dbInv, clubInv, hnodup, hP2, hinv.2.2]
        · simpa [updateMemberRole, h1, hV, hc, hA] using h
    · simpa [updateMemberRole, h1, hV] using h

/-- C1 counterexample: the single-president invariant does not hold in
every reachable state.  From a fresh club, alice claims it and then
self-demotes through the role-update endpoint; the resulting state is
reachable by the public operations, yet the club is claimed with zero
president-role membership rows. -/
theorem invariant_violation_reachable :
    Reach (updateMemberRole (claimClub dbFresh "alice" true).2 "alice" "member" "alice").2 ∧
    ¬ dbInv (updateMemberRole (claimClub dbFresh "alice" true).2 "alice" "member" "alice").2 := by
  constructor
  · exact Reach.roleStep _ _ _ _ (Reach.claimStep _ _ _ (Reach.init usersAB))
  · decide

/-- C1 amended: the invariant — membership users distinct, the users of
the president-role rows exactly the content of the president reference,
and the claimed flag equal to the reference being set — is preserved by
claim, join and leave unconditionally, by add-leader whenever the user
resolved from the email is not the current president, and by the
role-update endpoint whenever a president assignment targets an
existing member and a non-president assignment does not target the
acting president; the unguarded cases are exactly the ones the
counterexample exploits. -/
theorem single_president_invariant_guarded (db : DB) (h : dbInv db) :
    (∀ u conf, dbInv (claimClub db u conf).2) ∧
    (∀ u, dbInv (joinClub db u).2) ∧
    (∀ u, dbInv (leaveClub db u).2) ∧
    (∀ email r adder,
      (∀ c uid, db.club = some c → findUserByEmail db.users email = some uid →
        c.president ≠ some uid) →
      dbInv (addLeader db email r adder).2) ∧
    (∀ target r acting,
      (r = "president" → ∀ c, db.club = some c → target ∈ usersOf c.mems) →
      (r ≠ "president" → target ≠ acting) →
      dbInv (updateMemberRole db target r acting).2) :=
  ⟨fun u conf => claim_preserves_inv db u conf h,
   fun u => join_preserves_inv db u h,
   fun u => leave_preserves_inv db u h,
   fun email r adder hg => addLeader_preserves_inv db email r adder h hg,
   fun target r acting hg1 hg2 => role_update_preserves_inv db target r acting h hg1 hg2⟩

/-- Closed instance of the amended C1: the invariant holds of the
two-member state and is preserved there by a claim attempt, a join, a
leave, and a guarded presidency transfer to the member bob. -/
theorem single_president_invariant_guarded_witness :
    dbInv dbTwo ∧
    dbInv (claimClub dbTwo "carol" true).2 ∧
    dbInv (joinClub dbTwo "bob").2 ∧
    dbInv (leaveClub dbTwo "bob").2 ∧
    dbInv (updateMemberRole dbTwo "bob" "president" "alice").2 := by
  have h := single_president_invariant_guarded dbTwo (by decide)
  exact ⟨by decide, h.1 "carol" true, h.2.1 "bob", h.2.2.1 "bob",
    h.2.2.2.2 "bob" "president" "alice"
      (fun _ c hc => by cases hc; decide)
      (fun hne _ => hne rfl)⟩

end BerkConnect
